import Mathlib

/-!
Verification development for the Salin offline-capable voice translation app.

The repository is a React client around a streaming audio session:
`src/App.tsx` (primary variant, first document) owns the session state
machine, the playback scheduler, the transcript aggregator and the
wake/mood extraction; `src/unnamed/part_000` holds two further variants
of the same component.  This file shallowly embeds the state and the
event handlers of those components and proves the specified properties
about them.  React `useState`/`useRef` cells are modelled as fields of an
explicit state record, and each callback (`stopSession`, `onmessage`
branches, `onerror`, the `offline` listener, the synchronous prefix of
`startSession`) becomes a pure function on that record.  Timers, the
remote session handle and the audio contexts are modelled at the level
the handlers observe them: a pending-timer flag, an open/closed handle
flag, and a three-valued context reference.
-/

namespace Salin

/-- `ConnectionStatus` from `src/types.ts`. -/
inductive ConnectionStatus where
  | IDLE
  | CONNECTING
  | CONNECTED
  | RECONNECTING
  | ERROR
deriving DecidableEq, Repr

/-- Moods of the avatar, from the `currentMood` state in `src/App.tsx`. -/
inductive Mood where
  | neutral
  | happy
  | sad
  | angry
  | surprised
  | cool
deriving DecidableEq, Repr

/-- Speaker tag of a `TranscriptionEntry` (`src/types.ts`). -/
inductive Speaker where
  | user
  | model
deriving DecidableEq, Repr

/-- A transcript entry as the handlers build it.  The source also stores a
random `id` and a wall-clock `timestamp`; both are produced by the
environment (`Math.random`, `new Date()`) and carry no program logic, so
the embedding keeps the two fields the claims talk about. -/
structure TranscriptionEntry where
  speaker : Speaker
  text : List Char
deriving DecidableEq, Repr

/-- State of an `AudioContext` reference cell (`inputAudioCtxRef`,
`outputAudioCtxRef`): the ref is null, or holds a context that is not yet
closed, or holds a closed context. -/
inductive CtxRef where
  | nullRef
  | openCtx
  | closedCtx
deriving DecidableEq, Repr

/-- One scheduled playback chunk: the start time passed to
`source.start(...)` and the buffer duration (`src/App.tsx`, lines
164-179).  The `sourcesRef` set is modelled as the list of chunks in
scheduling order. -/
structure Chunk where
  startAt : ℚ
  dur : ℚ
deriving DecidableEq, Repr

/-- The state owned by the `App` component in `src/App.tsx` (first
variant): the `useState` values and the `useRef` cells the session logic
reads and writes.  `sessionOpen` stands for `sessionRef.current !== null`,
`retryTimeout` for a pending `retryTimeoutRef` timer. -/
structure AppState where
  status : ConnectionStatus
  history : List TranscriptionEntry
  isSpeaking : Bool
  isAwake : Bool
  isOnline : Bool
  currentMood : Mood
  sessionOpen : Bool
  inputAudioCtx : CtxRef
  outputAudioCtx : CtxRef
  nextStartTime : ℚ
  sources : List Chunk
  transcriptionInput : List Char
  transcriptionOutput : List Char
  retryCount : ℕ
  retryTimeout : Bool
deriving DecidableEq, Repr

/-- `MAX_RETRIES` (`src/App.tsx`, line 9). -/
def MAX_RETRIES : ℕ := 3

/-- `RETRY_DELAY_BASE` in milliseconds (`src/App.tsx`, line 10). -/
def RETRY_DELAY_BASE : ℕ := 2000

/-- ASCII fragment of JavaScript `toLowerCase`, applied per character. -/
def lowerChar (c : Char) : Char :=
  if 65 ≤ c.toNat ∧ c.toNat ≤ 90 then Char.ofNat (c.toNat + 32) else c

/-- ASCII fragment of JavaScript `toUpperCase`, applied per character. -/
def upperChar (c : Char) : Char :=
  if 97 ≤ c.toNat ∧ c.toNat ≤ 122 then Char.ofNat (c.toNat - 32) else c

/-- Whitespace test used to model JavaScript `String.prototype.trim`. -/
def wsChar (c : Char) : Bool :=
  c == ' ' || c == Char.ofNat 9 || c == Char.ofNat 10 || c == Char.ofNat 13

/-- JavaScript `trim` on the character-list view of a string. -/
def trimString (l : List Char) : List Char :=
  ((l.dropWhile wsChar).reverse.dropWhile wsChar).reverse

/-- `stopSession` (`src/App.tsx`, lines 47-90): clear a pending retry
timer, close the session handle if present, stop every scheduled source
and clear the set, close each audio context unless its state is already
`closed` and null the ref, then reset status and all derived flags.  In
the record model the checked close-and-null of a `CtxRef` always ends at
`nullRef`; the check that the context state is not already closed is what makes the close safe to
repeat, which the idempotence theorem below records. -/
def stopSession (s : AppState) : AppState :=
  { s with
    retryTimeout := false
    sessionOpen := false
    sources := []
    inputAudioCtx := CtxRef.nullRef
    outputAudioCtx := CtxRef.nullRef
    status := ConnectionStatus.IDLE
    isSpeaking := false
    isAwake := false
    currentMood := Mood.neutral
    nextStartTime := 0
    retryCount := 0 }

/-- The `offline` listener (`src/App.tsx`, lines 34-37):
`setIsOnline(false); stopSession();`. -/
def handleOffline (s : AppState) : AppState :=
  stopSession { s with isOnline := false }

/-- One inbound `message.serverContent` as the `onmessage` callback
destructures it (`src/App.tsx`, lines 163-235): optional inline audio
(represented by the duration of the decoded buffer), optional partial input
and output transcription text, and the two boolean signals. -/
structure ServerContent where
  audioDur : Option ℚ
  inputTranscriptionText : Option (List Char)
  outputTranscriptionText : Option (List Char)
  turnComplete : Bool
  interrupted : Bool

/-- Audio branch of `onmessage` (`src/App.tsx`, lines 164-180): if inline
audio is present and the output context exists and is not closed, mark
speaking, move the cursor to `max(nextStartTime, audioCtx.currentTime)`,
start the new source there, advance the cursor by the buffer duration and
add the source to the live set.  `now` is `audioCtx.currentTime` at
submission. -/
def onmessageAudio (audioDur : Option ℚ) (now : ℚ) (s : AppState) : AppState :=
  match audioDur with
  | none => s
  | some dur =>
    if s.outputAudioCtx = CtxRef.openCtx then
      let startAt := max s.nextStartTime now
      { s with
        isSpeaking := true
        nextStartTime := startAt + dur
        sources := s.sources ++ [⟨startAt, dur⟩] }
    else s

/-- JavaScript `String.prototype.includes`: `needle` occurs contiguously
somewhere in `hay`. -/
def containsSub (needle : List Char) : List Char → Bool
  | [] => needle.isEmpty
  | c :: cs => needle.isPrefixOf (c :: cs) || containsSub needle cs

/-- The fixed wake-trigger set (`src/App.tsx`, line 185). -/
def wakeTriggers : List (List Char) :=
  [ "hey salin".data
  , "hoy salin".data
  , "kamusta salin".data
  , ("what".data ++ [Char.ofNat 39] ++ "s up salin".data)
  , "sali".data ]

/-- The wake test the code performs on one lowercased inbound fragment
(`src/App.tsx`, line 186): some trigger is a substring of that fragment. -/
def wakeHit (textLowered : List Char) : Bool :=
  wakeTriggers.any fun t => containsSub t textLowered

/-- Input-transcription branch of `onmessage` (`src/App.tsx`, lines
182-190): lowercase the fragment, append it to the input buffer; if not
awake and some wake trigger occurs in the fragment, set awake and clear
the whole input buffer. -/
def onmessageInput (frag? : Option (List Char)) (s : AppState) : AppState :=
  match frag? with
  | none => s
  | some frag =>
    let text := frag.map lowerChar
    let s1 := { s with transcriptionInput := s.transcriptionInput ++ text }
    if !s.isAwake ∧ wakeHit text then
      { s1 with isAwake := true, transcriptionInput := [] }
    else s1

/-- The bracketed tag scanned for mood `m` (`src/App.tsx`, lines 196-202);
the scan is case-sensitive on uppercase tags. -/
def moodTag : Mood → List Char
  | Mood.neutral => "[NEUTRAL]".data
  | Mood.happy => "[HAPPY]".data
  | Mood.sad => "[SAD]".data
  | Mood.angry => "[ANGRY]".data
  | Mood.surprised => "[SURPRISED]".data
  | Mood.cool => "[COOL]".data

/-- Scan order of the mood loop (`src/App.tsx`, line 196). -/
def moodScanOrder : List Mood :=
  [Mood.happy, Mood.sad, Mood.angry, Mood.surprised, Mood.cool]

/-- Output-transcription branch of `onmessage` (`src/App.tsx`, lines
192-203): append the fragment unchanged, then take the first mood whose
tag occurs in the fragment, if any. -/
def onmessageOutput (frag? : Option (List Char)) (s : AppState) : AppState :=
  match frag? with
  | none => s
  | some frag =>
    let s1 := { s with transcriptionOutput := s.transcriptionOutput ++ frag }
    match moodScanOrder.find? (fun m => containsSub (moodTag m) frag) with
    | some m => { s1 with currentMood := m }
    | none => s1

/-- Lowercased forms of the tags removed by the display-text regex
`\[(HAPPY|SAD|ANGRY|SURPRISED|COOL|NEUTRAL)\]` with flags `gi`
(`src/App.tsx`, line 209). -/
def stripTagList : List (List Char) :=
  [ "[happy]".data, "[sad]".data, "[angry]".data
  , "[surprised]".data, "[cool]".data, "[neutral]".data ]

/-- Case-insensitive test that `tag` matches at the head of `l`. -/
def tagMatchesHead (tag l : List Char) : Bool :=
  (l.take tag.length).map lowerChar == tag

/-- Left-to-right removal of non-overlapping tag occurrences, the
behaviour of the global `replace` on line 209.  The fuel argument is the
remaining input length, which bounds the recursion. -/
def stripMoodTagsAux : ℕ → List Char → List Char
  | 0, l => l
  | _ + 1, [] => []
  | fuel + 1, c :: cs =>
    match stripTagList.find? (fun t => tagMatchesHead t (c :: cs)) with
    | some t => stripMoodTagsAux fuel ((c :: cs).drop t.length)
    | none => c :: stripMoodTagsAux fuel cs

/-- `modelText.replace(/\[(HAPPY|SAD|ANGRY|SURPRISED|COOL|NEUTRAL)\]/gi, an
empty string)` from `src/App.tsx`, line 209. -/
def stripMoodTags (l : List Char) : List Char :=
  stripMoodTagsAux l.length l

/-- Turn-complete branch of `onmessage` (`src/App.tsx`, lines 205-228):
trim the input buffer; trim the output buffer, strip mood tags, trim
again; append a user entry when the trimmed input is non-empty and the
session is awake; append a model entry when the stripped text is
non-empty; clear both buffers. -/
def turnCompleteAction (s : AppState) : AppState :=
  let userText := trimString s.transcriptionInput
  let modelText := trimString (stripMoodTags (trimString s.transcriptionOutput))
  let h1 :=
    if userText ≠ [] ∧ s.isAwake then
      s.history ++ [⟨Speaker.user, userText⟩]
    else s.history
  let h2 :=
    if modelText ≠ [] then h1 ++ [⟨Speaker.model, modelText⟩] else h1
  { s with
    history := h2
    transcriptionInput := []
    transcriptionOutput := [] }

/-- Interrupted branch of `onmessage` (`src/App.tsx`, lines 230-235):
stop and discard every live source, clear the set, reset the timeline
cursor to 0 and clear the speaking flag. -/
def onmessageInterrupted (b : Bool) (s : AppState) : AppState :=
  if b then
    { s with sources := [], nextStartTime := 0, isSpeaking := false }
  else s

/-- The whole `onmessage` callback (`src/App.tsx`, lines 163-236), in the
branch order of the source: audio, input transcription, output transcription,
turn complete, interrupted. -/
def onmessage (m : ServerContent) (now : ℚ) (s : AppState) : AppState :=
  onmessageInterrupted m.interrupted
    (if m.turnComplete then
        turnCompleteAction
          (onmessageOutput m.outputTranscriptionText
            (onmessageInput m.inputTranscriptionText
              (onmessageAudio m.audioDur now s)))
      else
        onmessageOutput m.outputTranscriptionText
          (onmessageInput m.inputTranscriptionText
            (onmessageAudio m.audioDur now s)))

/-- The `ended` listener of one source (`src/App.tsx`, lines 173-176):
remove the chunk from the live set; when the set becomes empty, clear the
speaking flag. -/
def sourceEnded (c : Chunk) (s : AppState) : AppState :=
  let rest := s.sources.erase c
  { s with sources := rest, isSpeaking := if rest = [] then false else s.isSpeaking }

/-- A message carrying only inline audio of duration `d`. -/
def audioOnlyMsg (d : ℚ) : ServerContent :=
  ⟨some d, none, none, false, false⟩

/-- A message carrying only the interrupted signal. -/
def interruptedMsg : ServerContent :=
  ⟨none, none, none, false, true⟩

/-- Deliver a sequence of audio-only messages; each pair is the decoded
buffer duration and `audioCtx.currentTime` at that submission. -/
def runAudioMessages (s : AppState) (subs : List (ℚ × ℚ)) : AppState :=
  subs.foldl (fun st p => onmessage (audioOnlyMsg p.1) p.2 st) s

/-- The start times and durations produced by repeatedly running the
scheduling step of the audio branch from cursor `next`: each submission
starts at `max next now` and moves the cursor past its duration. -/
def schedStarts (next : ℚ) : List (ℚ × ℚ) → List Chunk
  | [] => []
  | (d, t) :: rest =>
    let sAt := max next t
    ⟨sAt, d⟩ :: schedStarts (sAt + d) rest

/-- Sum of the submitted durations. -/
def durSum (subs : List (ℚ × ℚ)) : ℚ :=
  (subs.map Prod.fst).sum

/-- A reference state in which a session is connected: both contexts
open, empty buffers and live set, timeline cursor at 0. -/
def connectedState : AppState :=
  { status := ConnectionStatus.CONNECTED
    history := []
    isSpeaking := false
    isAwake := true
    isOnline := true
    currentMood := Mood.neutral
    sessionOpen := true
    inputAudioCtx := CtxRef.openCtx
    outputAudioCtx := CtxRef.openCtx
    nextStartTime := 0
    sources := []
    transcriptionInput := []
    transcriptionOutput := []
    retryCount := 0
    retryTimeout := false }

/-- The error classifier in `onerror` (`src/App.tsx`, line 239): the
lowercased message mentions `unavailable` or `busy`. -/
def isUnavailable (msg : List Char) : Bool :=
  containsSub "unavailable".data (msg.map lowerChar) ||
    containsSub "busy".data (msg.map lowerChar)

/-- The exponential backoff delay chosen for the retry at counter value
`retryCount` after the increment (`src/App.tsx`, line 244):
`RETRY_DELAY_BASE * 2 ^ (retryCount - 1)`. -/
def retryDelay (retryCount : ℕ) : ℕ :=
  RETRY_DELAY_BASE * 2 ^ (retryCount - 1)

/-- The `onerror` callback (`src/App.tsx`, lines 237-253): a recoverable
(`unavailable`/`busy`) error with retry budget left increments the
counter, shows `RECONNECTING` and schedules a backoff timer that will
call `startSession`; otherwise the handler sets `ERROR` and calls
`stopSession`. -/
def onerror (msg : List Char) (s : AppState) : AppState :=
  if isUnavailable msg ∧ s.retryCount < MAX_RETRIES then
    { s with
      retryCount := s.retryCount + 1
      status := ConnectionStatus.RECONNECTING
      retryTimeout := true }
  else
    stopSession { s with status := ConnectionStatus.ERROR }

/-- The retry timer firing (`src/App.tsx`, lines 246-248, then 92-110):
the timeout consumes itself and runs `startSession`, whose synchronous
prefix checks the online flag, shows `CONNECTING` or `RECONNECTING`
according to the retry counter, drops the awake flag and allocates a
fresh pair of audio contexts. -/
def retryTimerFires (s : AppState) : AppState :=
  if s.isOnline = false then
    { s with retryTimeout := false, status := ConnectionStatus.ERROR }
  else
    { s with
      retryTimeout := false
      status :=
        if s.retryCount = 0 then ConnectionStatus.CONNECTING
        else ConnectionStatus.RECONNECTING
      isAwake := false
      inputAudioCtx := CtxRef.openCtx
      outputAudioCtx := CtxRef.openCtx }

/-- A run of consecutive transient remote errors against the live
attempt.  Each recoverable error within budget schedules a reconnect
timer whose firing re-enters `startSession`, and the next error hits that
new attempt; when the budget is exhausted the handler enters `ERROR` and
tears everything down with `stopSession`, after which no live session or
timer remains to deliver the rest of the run, so the run stops there.
Returns the final state, the number of reconnect timers scheduled and the
number of times the `ERROR` status was entered. -/
def runTransientErrors (msg : List Char) : ℕ → AppState → AppState × ℕ × ℕ
  | 0, s => (s, 0, 0)
  | n + 1, s =>
    if isUnavailable msg ∧ s.retryCount < MAX_RETRIES then
      let r := runTransientErrors msg n (retryTimerFires (onerror msg s))
      (r.1, r.2.1 + 1, r.2.2)
    else
      (onerror msg s, 0, 1)

/-- The slice of component state the `startSession` entry guards read and
write, together with two instrumentation counters: how many audio-context
pairs were allocated and how many `ai.live.connect` attempts were
issued.  `isConnecting` is the `isConnectingRef` re-entrancy flag of the
`src/unnamed/part_000` variant; the `src/App.tsx` variant has no such
ref. -/
structure StartState where
  isOnline : Bool
  isConnecting : Bool
  status : ConnectionStatus
  ctxPairs : ℕ
  connectAttempts : ℕ
deriving DecidableEq, Repr

/-- `startSession` in `src/App.tsx` (lines 92-119), as the effect of one
invocation: the only guard is the online check; an online call always
sets the status from the retry counter, allocates a fresh pair of audio
contexts and issues a connect attempt.  Nothing stops a second rapid call
from doing the same again before the first resolves. -/
def appStartSession (retryCount : ℕ) (s : StartState) : StartState :=
  if s.isOnline = false then
    { s with status := ConnectionStatus.ERROR }
  else
    { s with
      status :=
        if retryCount = 0 then ConnectionStatus.CONNECTING
        else ConnectionStatus.RECONNECTING
      ctxPairs := s.ctxPairs + 1
      connectAttempts := s.connectAttempts + 1 }

/-- `startSession` in `src/unnamed/part_000` (first variant, lines
64-109): after the online check, a set `isConnectingRef` makes the call
return before anything is allocated; otherwise the flag is set
synchronously (before any await) and the attempt proceeds to allocate
the context pair and issue the connect call.  The flag stays set until
`onopen`, `onerror` or the catch block clears it, so a second call made
before the first attempt resolves sees it set. -/
def part000StartSession (s : StartState) : StartState :=
  if s.isOnline = false then
    { s with status := ConnectionStatus.ERROR }
  else if s.isConnecting then s
  else
    { s with
      isConnecting := true
      status := ConnectionStatus.CONNECTING
      ctxPairs := s.ctxPairs + 1
      connectAttempts := s.connectAttempts + 1 }

/-- The turn-complete branch of `onmessage` in `src/unnamed/part_000`
(first variant, lines 177-190), on its transcript state: both buffers are
trimmed, and the user entry, and then the model entry, are appended
inside a single `if (uText)` block, so the model entry is nested under
the non-empty user text check; both buffers are then cleared.  Returns
the new history and the cleared buffers. -/
def part000TurnComplete (input output : List Char)
    (hist : List TranscriptionEntry) :
    List TranscriptionEntry × List Char × List Char :=
  let uText := trimString input
  let mText := trimString output
  let h1 :=
    if uText ≠ [] then
      (hist ++ [⟨Speaker.user, uText⟩]) ++
        (if mText ≠ [] then [⟨Speaker.model, mText⟩] else [])
    else hist
  (h1, [], [])

/-- The input-transcription branch of `onmessage` in
`src/unnamed/part_000` (second variant, lines 501-505), on its
`(input buffer, isAwake)` state: lowercase the fragment, append it, and
wake on the single trigger `salin` occurring in the fragment. -/
def part000v2InputBranch (frag : List Char) (st : List Char × Bool) :
    List Char × Bool :=
  let text := frag.map lowerChar
  (st.1 ++ text, st.2 || (!st.2 && containsSub "salin".data text))

/-- Modelled from the spec: the Audio Frame Codec lives in
`services/audio-helpers` (`decode`, `encode`, `decodeAudioData`,
`createBlob`), which is not under `src/`; spec section 4.2 defines it.
Encode clamps each float sample to `[-1, 1]` first. -/
def clampSample (s : ℚ) : ℚ :=
  max (-1) (min 1 s)

/-- Modelled from the spec: integer conversion of the scaled sample.
JavaScript stores the scaled value into a 16-bit signed array, which
truncates toward zero. -/
def ratTrunc (q : ℚ) : ℤ :=
  if 0 ≤ q then ⌊q⌋ else ⌈q⌉

/-- Modelled from the spec: one encoded sample, the clamped float scaled
by 32767 to a 16-bit signed integer (spec section 4.2). -/
def encodeSample (s : ℚ) : ℤ :=
  ratTrunc (clampSample s * 32767)

/-- Modelled from the spec: little-endian two-byte layout of a 16-bit
signed integer, via its 16-bit twos-complement pattern. -/
def int16ToBytes (i : ℤ) : List ℕ :=
  let u := (i % 65536).toNat
  [u % 256, u / 256]

/-- Modelled from the spec: read one 16-bit little-endian signed integer
back from its two bytes. -/
def bytesToInt16 (lo hi : ℕ) : ℤ :=
  let u := lo + 256 * hi
  if u < 32768 then (u : ℤ) else (u : ℤ) - 65536

/-- Modelled from the spec: pack the whole frame, sample by sample,
little-endian, concatenated. -/
def packFrame (frame : List ℚ) : List ℕ :=
  (frame.map fun s => int16ToBytes (encodeSample s)).flatten

/-- The standard base64 alphabet. -/
def b64chars : List Char :=
  "ABCDEFGHIJKLMNOPQRSTUVWXYZabcdefghijklmnopqrstuvwxyz0123456789+/".data

/-- Character of one sextet value. -/
def sextetChar (n : ℕ) : Char :=
  b64chars.getD n '='

/-- Sextet value of one base64 character (the padding character and any
foreign character map past the alphabet). -/
def charToSextet (c : Char) : ℕ :=
  b64chars.findIdx (fun d => d == c)

/-- Modelled from the spec: base64 encoding of a byte list, 3 bytes to 4
characters with `=` padding. -/
def b64encode : List ℕ → List Char
  | [] => []
  | [b1] =>
    [sextetChar (b1 / 4), sextetChar (b1 % 4 * 16), '=', '=']
  | [b1, b2] =>
    [ sextetChar (b1 / 4), sextetChar (b1 % 4 * 16 + b2 / 16)
    , sextetChar (b2 % 16 * 4), '=' ]
  | b1 :: b2 :: b3 :: rest =>
    sextetChar (b1 / 4) :: sextetChar (b1 % 4 * 16 + b2 / 16) ::
      sextetChar (b2 % 16 * 4 + b3 / 64) :: sextetChar (b3 % 64) ::
        b64encode rest

/-- Modelled from the spec: base64 decoding back to bytes, honouring the
`=` padding; anything shorter than a 4-character group yields nothing. -/
def b64decode : List Char → List ℕ
  | c1 :: c2 :: c3 :: c4 :: rest =>
    let s1 := charToSextet c1
    let s2 := charToSextet c2
    if c3 = '=' then [s1 * 4 + s2 / 16]
    else
      let s3 := charToSextet c3
      if c4 = '=' then [s1 * 4 + s2 / 16, s2 % 16 * 16 + s3 / 4]
      else
        (s1 * 4 + s2 / 16) :: (s2 % 16 * 16 + s3 / 4) ::
          (s3 % 4 * 64 + charToSextet c4) :: b64decode rest
  | _ => []

/-- Modelled from the spec: `createBlob`, the encode direction — clamp,
scale by 32767 to 16-bit signed, pack little-endian, base64-encode.  The
fixed MIME tag `audio/pcm;rate=16000` travels alongside and carries no
sample data. -/
def createBlob (frame : List ℚ) : List Char :=
  b64encode (packFrame frame)

/-- Modelled from the spec: `decodeAudioData` on the decoded bytes —
interpret consecutive byte pairs as 16-bit little-endian signed integers
and divide by 32768; a trailing odd byte yields no sample.  The declared
output rate (24000) and channel count (1) shape the playable buffer and
not the sample values. -/
def decodeAudioData : List ℕ → List ℚ
  | lo :: hi :: rest => ((bytesToInt16 lo hi : ℤ) : ℚ) / 32768 :: decodeAudioData rest
  | _ => []

/-- Modelled from the spec: the full decode direction, base64 text back
to normalized float samples. -/
def decodeFrame (payload : List Char) : List ℚ :=
  decodeAudioData (b64decode payload)

/-! ## Playback scheduler lemmas -/

theorem onmessage_audioOnly (d now : ℚ) (s : AppState) :
    onmessage (audioOnlyMsg d) now s = onmessageAudio (some d) now s := rfl

theorem onmessageAudio_open (d now : ℚ) (s : AppState)
    (h : s.outputAudioCtx = CtxRef.openCtx) :
    onmessageAudio (some d) now s =
      { s with
        isSpeaking := true
        nextStartTime := max s.nextStartTime now + d
        sources := s.sources ++ [⟨max s.nextStartTime now, d⟩] } := by
  simp [onmessageAudio, h]

theorem runAudioMessages_sources (subs : List (ℚ × ℚ)) :
    ∀ s : AppState, s.outputAudioCtx = CtxRef.openCtx →
      (runAudioMessages s subs).sources =
        s.sources ++ schedStarts s.nextStartTime subs ∧
      (runAudioMessages s subs).outputAudioCtx = CtxRef.openCtx := by
  induction subs with
  | nil => intro s h; simp [runAudioMessages, schedStarts, h]
  | cons p rest ih =>
    intro s h
    obtain ⟨d, t⟩ := p
    have hstep : runAudioMessages s ((d, t) :: rest) =
        runAudioMessages (onmessageAudio (some d) t s) rest := by
      simp [runAudioMessages, onmessage_audioOnly]
    rw [hstep, onmessageAudio_open d t s h]
    have := ih { s with
        isSpeaking := true
        nextStartTime := max s.nextStartTime t + d
        sources := s.sources ++ [⟨max s.nextStartTime t, d⟩] } (by simpa using h)
    simpa [schedStarts, List.append_assoc] using this

theorem schedStarts_length (subs : List (ℚ × ℚ)) :
    ∀ next : ℚ, (schedStarts next subs).length = subs.length := by
  induction subs with
  | nil => intro next; simp [schedStarts]
  | cons p rest ih => intro next; obtain ⟨d, t⟩ := p; simp [schedStarts, ih]

theorem schedStarts_start_ge (subs : List (ℚ × ℚ)) :
    ∀ next : ℚ, (∀ p ∈ subs, 0 ≤ p.1) →
      ∀ c ∈ schedStarts next subs, next ≤ c.startAt := by
  induction subs with
  | nil => intro next _ c hc; simp [schedStarts] at hc
  | cons p rest ih =>
    intro next hd c hc
    obtain ⟨d, t⟩ := p
    simp only [schedStarts, List.mem_cons] at hc
    rcases hc with hc | hc
    · subst hc; exact le_max_left _ _
    · have h1 : max next t + d ≤ c.startAt :=
        ih (max next t + d) (fun q hq => hd q (List.mem_cons_of_mem _ hq)) c hc
      have h0 : (0 : ℚ) ≤ d := hd (d, t) (List.mem_cons_self _ _)
      have : next ≤ max next t + d := by
        have := le_max_left next t
        linarith
      linarith

theorem schedStarts_sum_le (subs : List (ℚ × ℚ)) :
    ∀ (next : ℚ) (i : ℕ), i < subs.length →
      next + durSum (subs.take i) ≤
        ((schedStarts next subs).getD i ⟨0, 0⟩).startAt := by
  induction subs with
  | nil => intro next i hi; simp at hi
  | cons p rest ih =>
    intro next i hi
    obtain ⟨d, t⟩ := p
    match i with
    | 0 =>
      simp only [schedStarts, List.getD_cons_zero, durSum, List.take_zero,
        List.map_nil, List.sum_nil, add_zero]
      exact le_max_left _ _
    | Nat.succ j =>
      have hj : j < rest.length := by simpa using hi
      have h1 := ih (max next t + d) j hj
      have h2 : next ≤ max next t := le_max_left _ _
      simp only [schedStarts, List.getD_cons_succ]
      have hsum : durSum (((d, t) :: rest).take (j + 1)) =
          d + durSum (rest.take j) := by
        simp [durSum]
      rw [hsum]
      linarith

theorem schedStarts_now_le (subs : List (ℚ × ℚ)) :
    ∀ (next : ℚ) (i : ℕ), i < subs.length →
      (subs.getD i (0, 0)).2 ≤ ((schedStarts next subs).getD i ⟨0, 0⟩).startAt := by
  induction subs with
  | nil => intro next i hi; simp at hi
  | cons p rest ih =>
    intro next i hi
    obtain ⟨d, t⟩ := p
    match i with
    | 0 =>
      simp only [schedStarts, List.getD_cons_zero]
      exact le_max_right _ _
    | Nat.succ j =>
      have hj : j < rest.length := by simpa using hi
      simpa [schedStarts, List.getD_cons_succ] using ih (max next t + d) j hj

theorem schedStarts_pairwise (subs : List (ℚ × ℚ)) :
    ∀ next : ℚ, (∀ p ∈ subs, 0 ≤ p.1) →
      List.Pairwise (fun a b : Chunk => a.startAt ≤ b.startAt)
        (schedStarts next subs) := by
  induction subs with
  | nil => intro next _; simp [schedStarts]
  | cons p rest ih =>
    intro next hd
    obtain ⟨d, t⟩ := p
    have h0 : (0 : ℚ) ≤ d := hd (d, t) (List.mem_cons_self _ _)
    have hrest : ∀ q ∈ rest, 0 ≤ q.1 :=
      fun q hq => hd q (List.mem_cons_of_mem _ hq)
    simp only [schedStarts, List.pairwise_cons]
    refine ⟨fun c hc => ?_, ih (max next t + d) hrest⟩
    have := schedStarts_start_ge rest (max next t + d) hrest c hc
    linarith

/-- Claim C1: while connected, the i-th scheduled buffer starts no
earlier than the sum of the previous durations and no earlier than the
current time of the playback timeline at its submission, because the start is
computed as `max(nextStartTime, currentTime)` and `nextStartTime` then
advances by the buffer duration; hence the scheduled start times are
monotonically non-decreasing. -/
theorem claim_C1_playback_nonoverlap
    (subs : List (ℚ × ℚ)) (s : AppState)
    (hctx : s.outputAudioCtx = CtxRef.openCtx)
    (hnext : s.nextStartTime = 0)
    (hsrc : s.sources = [])
    (hdur : ∀ p ∈ subs, 0 ≤ p.1) :
    (runAudioMessages s subs).sources.length = subs.length ∧
    (∀ i, i < subs.length →
      durSum (subs.take i) ≤
          (((runAudioMessages s subs).sources.getD i ⟨0, 0⟩).startAt) ∧
        (subs.getD i (0, 0)).2 ≤
          (((runAudioMessages s subs).sources.getD i ⟨0, 0⟩).startAt)) ∧
    List.Pairwise (fun a b : Chunk => a.startAt ≤ b.startAt)
      (runAudioMessages s subs).sources := by
  obtain ⟨hs, -⟩ := runAudioMessages_sources subs s hctx
  rw [hs, hsrc, hnext, List.nil_append]
  refine ⟨schedStarts_length subs 0, fun i hi => ⟨?_, ?_⟩, schedStarts_pairwise subs 0 hdur⟩
  · simpa using schedStarts_sum_le subs 0 i hi
  · exact schedStarts_now_le subs 0 i hi

theorem claim_C1_witness :
    (connectedState.outputAudioCtx = CtxRef.openCtx ∧
      connectedState.nextStartTime = 0 ∧
      connectedState.sources = [] ∧
      (∀ p ∈ [((1 : ℚ), (0 : ℚ)), (2, 5), (1, 2)], 0 ≤ p.1)) ∧
    ((runAudioMessages connectedState
        [((1 : ℚ), (0 : ℚ)), (2, 5), (1, 2)]).sources.length =
        ([((1 : ℚ), (0 : ℚ)), (2, 5), (1, 2)] : List (ℚ × ℚ)).length ∧
      (∀ i, i < ([((1 : ℚ), (0 : ℚ)), (2, 5), (1, 2)] : List (ℚ × ℚ)).length →
        durSum (([((1 : ℚ), (0 : ℚ)), (2, 5), (1, 2)] : List (ℚ × ℚ)).take i) ≤
            (((runAudioMessages connectedState
              [((1 : ℚ), (0 : ℚ)), (2, 5), (1, 2)]).sources.getD i ⟨0, 0⟩).startAt) ∧
          (([((1 : ℚ), (0 : ℚ)), (2, 5), (1, 2)] : List (ℚ × ℚ)).getD i (0, 0)).2 ≤
            (((runAudioMessages connectedState
              [((1 : ℚ), (0 : ℚ)), (2, 5), (1, 2)]).sources.getD i ⟨0, 0⟩).startAt)) ∧
      List.Pairwise (fun a b : Chunk => a.startAt ≤ b.startAt)
        (runAudioMessages connectedState
          [((1 : ℚ), (0 : ℚ)), (2, 5), (1, 2)]).sources) :=
  ⟨⟨rfl, rfl, rfl, by intro p hp; fin_cases hp <;> norm_num⟩,
    claim_C1_playback_nonoverlap _ connectedState rfl rfl rfl
      (by intro p hp; fin_cases hp <;> norm_num)⟩

/-- Claim C2: after scheduling any number of pending chunks, an
`interrupted` signal leaves the live-chunk set empty, the speaking flag
false and the timeline cursor `nextStartTime` at 0, synchronously in the
same message callback. -/
theorem claim_C2_interruption_clears_state
    (s : AppState) (subs : List (ℚ × ℚ)) (now : ℚ) :
    (onmessage interruptedMsg now (runAudioMessages s subs)).sources = [] ∧
    (onmessage interruptedMsg now (runAudioMessages s subs)).isSpeaking = false ∧
    (onmessage interruptedMsg now (runAudioMessages s subs)).nextStartTime = 0 := by
  simp [onmessage, interruptedMsg, onmessageInterrupted, onmessageInput,
    onmessageOutput, onmessageAudio]

/-- Claim C7: when the network goes offline while the controller is
Connected or Connecting, the forced stop moves the controller to Idle and
releases all audio resources: both context refs are closed and nulled,
the scheduled-chunk set is emptied, and the speaking and awake flags are
cleared. -/
theorem claim_C7_offline_force_stop (s : AppState)
    (h : s.status = ConnectionStatus.CONNECTED ∨
      s.status = ConnectionStatus.CONNECTING) :
    (handleOffline s).status = ConnectionStatus.IDLE ∧
    (handleOffline s).inputAudioCtx = CtxRef.nullRef ∧
    (handleOffline s).outputAudioCtx = CtxRef.nullRef ∧
    (handleOffline s).sources = [] ∧
    (handleOffline s).sessionOpen = false ∧
    (handleOffline s).isSpeaking = false ∧
    (handleOffline s).isAwake = false ∧
    (handleOffline s).isOnline = false := by
  simp [handleOffline, stopSession]

theorem claim_C7_witness :
    (connectedState.status = ConnectionStatus.CONNECTED ∨
      connectedState.status = ConnectionStatus.CONNECTING) ∧
    ((handleOffline connectedState).status = ConnectionStatus.IDLE ∧
      (handleOffline connectedState).inputAudioCtx = CtxRef.nullRef ∧
      (handleOffline connectedState).outputAudioCtx = CtxRef.nullRef ∧
      (handleOffline connectedState).sources = [] ∧
      (handleOffline connectedState).sessionOpen = false ∧
      (handleOffline connectedState).isSpeaking = false ∧
      (handleOffline connectedState).isAwake = false ∧
      (handleOffline connectedState).isOnline = false) :=
  ⟨Or.inl rfl, claim_C7_offline_force_stop connectedState (Or.inl rfl)⟩

/-- Claim C8: `stopSession` is idempotent — running it again from the
state it leaves behind changes nothing, thanks to the null and
already-closed checks before each close — and one run synchronously
clears all scheduled playback, releases both audio context refs and the
session handle, and cancels any pending retry timer so no reconnect can
fire after a manual stop. -/
theorem claim_C8_stop_idempotent_teardown (s : AppState) :
    stopSession (stopSession s) = stopSession s ∧
    (stopSession s).sources = [] ∧
    (stopSession s).inputAudioCtx = CtxRef.nullRef ∧
    (stopSession s).outputAudioCtx = CtxRef.nullRef ∧
    (stopSession s).sessionOpen = false ∧
    (stopSession s).retryTimeout = false ∧
    (stopSession s).nextStartTime = 0 ∧
    (stopSession s).isSpeaking = false := by
  refine ⟨rfl, ?_, ?_, ?_, ?_, ?_, ?_, ?_⟩ <;> rfl

/-- Unfolding of one budget-exhausted transient error run: once the
retry counter has consumed the budget, the next transient error enters
`ERROR` once and tears down; with budget remaining it schedules exactly
one more timer and recurses on the re-entered attempt. -/
theorem runTransientErrors_spec (msg : List Char) :
    ∀ (n : ℕ) (s : AppState), isUnavailable msg = true →
      s.isOnline = true → s.retryCount ≤ MAX_RETRIES →
      MAX_RETRIES - s.retryCount < n →
      (runTransientErrors msg n s).2.2 = 1 ∧
      (runTransientErrors msg n s).2.1 = MAX_RETRIES - s.retryCount ∧
      (runTransientErrors msg n s).1.sessionOpen = false ∧
      (runTransientErrors msg n s).1.inputAudioCtx = CtxRef.nullRef ∧
      (runTransientErrors msg n s).1.outputAudioCtx = CtxRef.nullRef ∧
      (runTransientErrors msg n s).1.sources = [] ∧
      (runTransientErrors msg n s).1.retryTimeout = false ∧
      (runTransientErrors msg n s).1.retryCount = 0 ∧
      (runTransientErrors msg n s).1.isSpeaking = false := by
  intro n
  induction n with
  | zero => intro s _ _ hle hn; omega
  | succ n ih =>
    intro s hmsg honline hle hn
    by_cases hbudget : s.retryCount < MAX_RETRIES
    · have hcond : isUnavailable msg ∧ s.retryCount < MAX_RETRIES :=
        ⟨hmsg, hbudget⟩
      have hstep : runTransientErrors msg (n + 1) s =
          ((runTransientErrors msg n (retryTimerFires (onerror msg s))).1,
            (runTransientErrors msg n (retryTimerFires (onerror msg s))).2.1 + 1,
            (runTransientErrors msg n (retryTimerFires (onerror msg s))).2.2) := by
        simp [runTransientErrors, hmsg, hbudget]
      have hone : onerror msg s =
          { s with
            retryCount := s.retryCount + 1
            status := ConnectionStatus.RECONNECTING
            retryTimeout := true } := by
        simp [onerror, hmsg, hbudget]
      have hfire : retryTimerFires (onerror msg s) =
          { s with
            retryCount := s.retryCount + 1
            retryTimeout := false
            status := ConnectionStatus.RECONNECTING
            isAwake := false
            inputAudioCtx := CtxRef.openCtx
            outputAudioCtx := CtxRef.openCtx } := by
        rw [hone]
        simp [retryTimerFires, honline]
      have ihx := ih { s with
          retryCount := s.retryCount + 1
          retryTimeout := false
          status := ConnectionStatus.RECONNECTING
          isAwake := false
          inputAudioCtx := CtxRef.openCtx
          outputAudioCtx := CtxRef.openCtx }
        hmsg (by simpa using honline) (by simp; omega) (by simp; omega)
      rw [hstep]
      simp only [hfire]
      refine ⟨ihx.1, ?_, ihx.2.2⟩
      have := ihx.2.1
      simp only at this
      simp only [this]
      omega
    · have hk : s.retryCount = MAX_RETRIES := by omega
      have hstep : runTransientErrors msg (n + 1) s = (onerror msg s, 0, 1) := by
        simp [runTransientErrors, hbudget]
      have hterm : onerror msg s =
          stopSession { s with status := ConnectionStatus.ERROR } := by
        simp [onerror, hbudget]
      rw [hstep, hterm]
      simp [stopSession]
      omega

/-- Claim C4: under N consecutive recoverable (transient
unavailable/busy) remote errors with N exceeding the retry budget
`MAX_RETRIES`, the controller enters the Error state exactly once,
schedules exactly `MAX_RETRIES` reconnect timers and none after the
failure (no timer remains pending), and fully releases the session
handle and the audio resources. -/
theorem claim_C4_retry_bound (msg : List Char) (n : ℕ) (s : AppState)
    (hmsg : isUnavailable msg = true)
    (honline : s.isOnline = true)
    (hstatus : s.status = ConnectionStatus.CONNECTED)
    (hretry : s.retryCount = 0)
    (hn : MAX_RETRIES < n) :
    (runTransientErrors msg n s).2.2 = 1 ∧
    (runTransientErrors msg n s).2.1 = MAX_RETRIES ∧
    (runTransientErrors msg n s).1.retryTimeout = false ∧
    (runTransientErrors msg n s).1.sessionOpen = false ∧
    (runTransientErrors msg n s).1.inputAudioCtx = CtxRef.nullRef ∧
    (runTransientErrors msg n s).1.outputAudioCtx = CtxRef.nullRef ∧
    (runTransientErrors msg n s).1.sources = [] := by
  have h := runTransientErrors_spec msg n s hmsg honline (by omega) (by omega)
  refine ⟨h.1, ?_, h.2.2.2.2.2.2.1, h.2.2.1, h.2.2.2.1, h.2.2.2.2.1,
    h.2.2.2.2.2.1⟩
  rw [h.2.1, hretry]
  omega

theorem claim_C4_witness :
    (isUnavailable "unavailable".data = true ∧
      connectedState.isOnline = true ∧
      connectedState.status = ConnectionStatus.CONNECTED ∧
      connectedState.retryCount = 0 ∧
      MAX_RETRIES < 4) ∧
    ((runTransientErrors "unavailable".data 4 connectedState).2.2 = 1 ∧
      (runTransientErrors "unavailable".data 4 connectedState).2.1 = MAX_RETRIES ∧
      (runTransientErrors "unavailable".data 4 connectedState).1.retryTimeout = false ∧
      (runTransientErrors "unavailable".data 4 connectedState).1.sessionOpen = false ∧
      (runTransientErrors "unavailable".data 4 connectedState).1.inputAudioCtx =
        CtxRef.nullRef ∧
      (runTransientErrors "unavailable".data 4 connectedState).1.outputAudioCtx =
        CtxRef.nullRef ∧
      (runTransientErrors "unavailable".data 4 connectedState).1.sources = []) :=
  ⟨⟨by decide, rfl, rfl, rfl, by decide⟩,
    claim_C4_retry_bound "unavailable".data 4 connectedState (by decide) rfl rfl
      rfl (by decide)⟩

/-- The start state an idle online app presents to `startSession`. -/
def idleStartState : StartState :=
  { isOnline := true
    isConnecting := false
    status := ConnectionStatus.IDLE
    ctxPairs := 0
    connectAttempts := 0 }

/-- Claim C5 counterexample: in the `src/App.tsx` variant `startSession`
has no re-entrancy flag, so two calls in rapid succession (the second
before the first attempt resolves) both pass the online guard, both
allocate a pair of audio contexts and both issue a connect attempt — two
live attempts and two context pairs, not one. -/
theorem claim_C5_counterexample :
    (appStartSession 0 (appStartSession 0 idleStartState)).connectAttempts = 2 ∧
    (appStartSession 0 (appStartSession 0 idleStartState)).ctxPairs = 2 ∧
    ¬ (appStartSession 0 (appStartSession 0 idleStartState)).connectAttempts = 1 := by
  decide

/-- Claim C5 as amended: in the `src/unnamed/part_000` variant, whose
`startSession` sets the `isConnectingRef` re-entrancy flag synchronously
before anything is allocated, a second call made while the first attempt
is still in flight returns at the guard: after two rapid calls exactly
one connect attempt has been issued and exactly one pair of audio
contexts allocated. -/
theorem claim_C5_single_session (s : StartState)
    (honline : s.isOnline = true)
    (hidle : s.isConnecting = false) :
    (part000StartSession (part000StartSession s)).connectAttempts =
      s.connectAttempts + 1 ∧
    (part000StartSession (part000StartSession s)).ctxPairs = s.ctxPairs + 1 ∧
    (part000StartSession (part000StartSession s)).isConnecting = true := by
  have h1 : part000StartSession s =
      { s with
        isConnecting := true
        status := ConnectionStatus.CONNECTING
        ctxPairs := s.ctxPairs + 1
        connectAttempts := s.connectAttempts + 1 } := by
    simp [part000StartSession, honline, hidle]
  rw [h1]
  simp [part000StartSession, honline]

theorem claim_C5_witness :
    (idleStartState.isOnline = true ∧ idleStartState.isConnecting = false) ∧
    ((part000StartSession (part000StartSession idleStartState)).connectAttempts =
        idleStartState.connectAttempts + 1 ∧
      (part000StartSession (part000StartSession idleStartState)).ctxPairs =
        idleStartState.ctxPairs + 1 ∧
      (part000StartSession (part000StartSession idleStartState)).isConnecting =
        true) :=
  ⟨⟨rfl, rfl⟩, claim_C5_single_session idleStartState rfl rfl⟩

/-- The upper-case ASCII range as a character test. -/
def isAsciiUpper (c : Char) : Bool :=
  decide (65 ≤ c.toNat ∧ c.toNat ≤ 90)

theorem toNat_ofNat_of_lt {n : ℕ} (h : n < 55296) :
    (Char.ofNat n).toNat = n := by
  have hv : n.isValidChar := Or.inl (by exact_mod_cast h)
  simp only [Char.ofNat, hv, dite_true, dif_pos]
  rfl

theorem lowerChar_not_upper (c : Char) : isAsciiUpper (lowerChar c) = false := by
  unfold lowerChar isAsciiUpper
  by_cases h : 65 ≤ c.toNat ∧ c.toNat ≤ 90
  · rw [if_pos h, decide_eq_false_iff_not, toNat_ofNat_of_lt (by omega)]
    omega
  · rw [if_neg h, decide_eq_false_iff_not]
    exact h

theorem lowerChar_upperChar (c : Char) :
    lowerChar (upperChar c) = lowerChar c := by
  unfold lowerChar upperChar
  by_cases h : 97 ≤ c.toNat ∧ c.toNat ≤ 122
  · rw [if_pos h, toNat_ofNat_of_lt (by omega), if_pos (by omega : 65 ≤ c.toNat - 32 ∧ c.toNat - 32 ≤ 90),
      if_neg (by omega : ¬ (65 ≤ c.toNat ∧ c.toNat ≤ 90))]
    have hsub : c.toNat - 32 + 32 = c.toNat := by omega
    rw [hsub, Char.ofNat_toNat]
  · rw [if_neg h]

theorem map_lowerChar_upperChar (l : List Char) :
    (l.map upperChar).map lowerChar = l.map lowerChar := by
  induction l with
  | nil => rfl
  | cons c cs ih => simp [lowerChar_upperChar, ih]

/-- Claim C9 counterexample: the wake test runs on each lowercased
inbound fragment, not on the accumulated transcript.  From a non-awake
state whose accumulated input buffer already holds `hey sa`, the
fragment `lin` makes the accumulated buffer `hey salin` — which contains
the wake phrase `hey salin` — yet the awake flag stays false, because
neither fragment alone contains a trigger. -/
theorem claim_C9_counterexample :
    (onmessageInput (some "lin".data)
        { connectedState with
          isAwake := false
          transcriptionInput := "hey sa".data }).isAwake = false ∧
    (onmessageInput (some "lin".data)
        { connectedState with
          isAwake := false
          transcriptionInput := "hey sa".data }).transcriptionInput =
      "hey salin".data ∧
    wakeHit ("hey salin".data.map lowerChar) = true := by
  refine ⟨?_, ?_, by decide⟩ <;>
    simp [onmessageInput, wakeHit, wakeTriggers, containsSub] <;> decide

/-- Claim C9 as amended: wake detection is a case-insensitive substring
match of each inbound input fragment — not of the accumulated transcript
— against the fixed trigger set; the first fragment that matches while
not awake flips the awake flag and discards the whole accumulated input
buffer (the matching fragment included), so the wake phrase is never
emitted as a user utterance; a non-matching fragment is appended
lowercased and leaves the flag alone.  Matching is case-insensitive:
upper-casing the fragment does not change the outcome of the test. -/
theorem claim_C9_wake_detection (s : AppState) (frag : List Char) :
    (onmessageInput (some frag) s).isAwake =
      (s.isAwake || wakeHit (frag.map lowerChar)) ∧
    (onmessageInput (some frag) s).transcriptionInput =
      (if s.isAwake = false ∧ wakeHit (frag.map lowerChar) = true then []
        else s.transcriptionInput ++ frag.map lowerChar) ∧
    wakeHit ((frag.map upperChar).map lowerChar) =
      wakeHit (frag.map lowerChar) := by
  refine ⟨?_, ?_, by rw [map_lowerChar_upperChar]⟩ <;>
  · unfold onmessageInput
    cases hA : s.isAwake <;> cases hW : wakeHit (frag.map lowerChar) <;>
      simp [hA, hW]

/-- A message carrying only an input-transcription fragment. -/
def inputMsg (t : List Char) : ServerContent :=
  ⟨none, some t, none, false, false⟩

/-- A message carrying only the turn-complete signal. -/
def turnMsg : ServerContent :=
  ⟨none, none, none, true, false⟩

theorem trimString_nil : trimString [] = [] := rfl

theorem stripMoodTags_nil : stripMoodTags [] = [] := rfl

theorem onmessage_turnMsg (now : ℚ) (s : AppState) :
    onmessage turnMsg now s = turnCompleteAction s := rfl

theorem onmessage_inputMsg (t : List Char) (now : ℚ) (s : AppState) :
    onmessage (inputMsg t) now s = onmessageInput (some t) s := rfl

theorem turnCompleteAction_history (s : AppState) :
    (turnCompleteAction s).history =
      s.history ++
        (if trimString s.transcriptionInput ≠ [] ∧ s.isAwake then
          [⟨Speaker.user, trimString s.transcriptionInput⟩] else []) ++
        (if trimString (stripMoodTags (trimString s.transcriptionOutput)) ≠ [] then
          [⟨Speaker.model,
            trimString (stripMoodTags (trimString s.transcriptionOutput))⟩]
          else []) := by
  by_cases hu : trimString s.transcriptionInput ≠ [] ∧ s.isAwake <;>
    by_cases hm :
      trimString (stripMoodTags (trimString s.transcriptionOutput)) ≠ [] <;>
    simp [turnCompleteAction, hu, hm]

/-- Claim C6 counterexample: with empty input and output buffer
`[HAPPY]`, the trimmed output buffer is non-empty, yet turn-complete
emits no model entry, because the emission test runs on the text after
mood-token stripping, which is empty here.  The claimed "model entry iff
trimmed output buffer non-empty" therefore fails on the code. -/
theorem claim_C6_counterexample :
    trimString ("[HAPPY]".data) ≠ [] ∧
    (onmessage turnMsg 0
        { connectedState with
          transcriptionOutput := "[HAPPY]".data }).history = [] := by
  constructor
  · decide
  · rw [onmessage_turnMsg, turnCompleteAction_history]
    decide

/-- Claim C6 as amended: on turn-complete in the `src/App.tsx` variant, a
user entry is emitted iff the trimmed input buffer is non-empty and the
session is awake, a model entry is emitted iff the output buffer is
non-empty after trimming and mood-token stripping (not merely after
trimming), the user entry precedes the model entry, and both buffers are
cleared, so a following turn-complete emits nothing; fragments
`hello ` + `world` yield exactly one user entry `hello world`.  In the
`src/unnamed/part_000` variant the model-entry emission is additionally
nested under the user check: one entry is appended iff the trimmed input
is non-empty, and a second iff both trimmed buffers are non-empty. -/
theorem claim_C6_turn_aggregation (s : AppState) :
    ((onmessage turnMsg 0 s).history =
      s.history ++
        (if trimString s.transcriptionInput ≠ [] ∧ s.isAwake then
          [⟨Speaker.user, trimString s.transcriptionInput⟩] else []) ++
        (if trimString (stripMoodTags (trimString s.transcriptionOutput)) ≠ [] then
          [⟨Speaker.model,
            trimString (stripMoodTags (trimString s.transcriptionOutput))⟩]
          else [])) ∧
    (onmessage turnMsg 0 s).transcriptionInput = [] ∧
    (onmessage turnMsg 0 s).transcriptionOutput = [] ∧
    (onmessage turnMsg 0 (onmessage turnMsg 0 s)).history =
      (onmessage turnMsg 0 s).history ∧
    (onmessage turnMsg 0
        (onmessage (inputMsg "world".data) 0
          (onmessage (inputMsg "hello ".data) 0 connectedState))).history =
      [⟨Speaker.user, "hello world".data⟩] ∧
    (∀ (input output : List Char) (hist : List TranscriptionEntry),
      (part000TurnComplete input output hist).1.length =
        hist.length + (if trimString input ≠ [] then 1 else 0) +
          (if trimString input ≠ [] ∧ trimString output ≠ [] then 1 else 0)) := by
  refine ⟨?_, rfl, rfl, ?_, ?_, ?_⟩
  · rw [onmessage_turnMsg, turnCompleteAction_history]
  · simp only [onmessage_turnMsg]
    rw [turnCompleteAction_history (turnCompleteAction s)]
    have h1 : (turnCompleteAction s).transcriptionInput = [] := rfl
    have h2 : (turnCompleteAction s).transcriptionOutput = [] := rfl
    rw [h1, h2, trimString_nil, stripMoodTags_nil, trimString_nil]
    simp
  · rw [onmessage_inputMsg, onmessage_inputMsg, onmessage_turnMsg,
      turnCompleteAction_history]
    decide
  · intro input output hist
    by_cases hu : trimString input ≠ [] <;>
      by_cases hm : trimString output ≠ [] <;>
      simp [part000TurnComplete, hu, hm]

/-- ASCII-uppercase-free test on a text. -/
def noUpper (l : List Char) : Bool :=
  l.all fun c => !(isAsciiUpper c)

theorem noUpper_append {a b : List Char} (ha : noUpper a = true)
    (hb : noUpper b = true) : noUpper (a ++ b) = true := by
  simp only [noUpper, List.all_append, Bool.and_eq_true] at *
  exact ⟨ha, hb⟩

theorem noUpper_map_lowerChar (l : List Char) :
    noUpper (l.map lowerChar) = true := by
  simp only [noUpper, List.all_eq_true, List.mem_map]
  rintro b ⟨c, -, rfl⟩
  simp [lowerChar_not_upper]

theorem mem_of_mem_dropWhile {p : Char → Bool} {l : List Char} {a : Char}
    (h : a ∈ l.dropWhile p) : a ∈ l := by
  induction l with
  | nil => simpa using h
  | cons c cs ih =>
    rw [List.dropWhile_cons] at h
    by_cases hp : p c = true
    · simp only [hp, if_true] at h
      exact List.mem_cons_of_mem _ (ih h)
    · simp only [hp] at h
      simpa using h

theorem noUpper_trimString {l : List Char} (h : noUpper l = true) :
    noUpper (trimString l) = true := by
  simp only [noUpper, List.all_eq_true] at *
  intro c hc
  apply h
  unfold trimString at hc
  rw [List.mem_reverse] at hc
  have hc2 := mem_of_mem_dropWhile hc
  rw [List.mem_reverse] at hc2
  exact mem_of_mem_dropWhile hc2

theorem onmessageInput_some (t : List Char) (s : AppState) :
    onmessageInput (some t) s =
      if s.isAwake = false ∧ wakeHit (t.map lowerChar) = true then
        { s with isAwake := true, transcriptionInput := [] }
      else
        { s with
          transcriptionInput := s.transcriptionInput ++ t.map lowerChar } := by
  unfold onmessageInput
  cases hA : s.isAwake <;> cases hW : wakeHit (t.map lowerChar) <;>
    simp [hA, hW]

theorem onmessageInput_invariants (t : List Char) (s : AppState) :
    (onmessageInput (some t) s).history = s.history ∧
    (onmessageInput (some t) s).transcriptionOutput = s.transcriptionOutput ∧
    (noUpper s.transcriptionInput = true →
      noUpper (onmessageInput (some t) s).transcriptionInput = true) := by
  rw [onmessageInput_some]
  by_cases hc : s.isAwake = false ∧ wakeHit (t.map lowerChar) = true
  · rw [if_pos hc]
    exact ⟨rfl, rfl, fun _ => rfl⟩
  · rw [if_neg hc]
    exact ⟨rfl, rfl, fun h =>
      noUpper_append h (noUpper_map_lowerChar t)⟩

/-- Fold of input-transcription-only messages. -/
def runInputMessages (s : AppState) (frags : List (List Char)) : AppState :=
  frags.foldl (fun st f => onmessage (inputMsg f) 0 st) s

theorem part000v2_foldl_noUpper (frags : List (List Char)) :
    ∀ st : List Char × Bool, noUpper st.1 = true →
      noUpper ((frags.foldl (fun acc f => part000v2InputBranch f acc) st)).1 =
        true := by
  induction frags with
  | nil => intro st h; exact h
  | cons f rest ih =>
    intro st h
    simp only [List.foldl_cons]
    exact ih _ (noUpper_append h (noUpper_map_lowerChar f))

theorem runInputMessages_invariants (frags : List (List Char)) :
    ∀ s : AppState,
      (runInputMessages s frags).history = s.history ∧
      (runInputMessages s frags).transcriptionOutput = s.transcriptionOutput ∧
      (noUpper s.transcriptionInput = true →
        noUpper (runInputMessages s frags).transcriptionInput = true) := by
  induction frags with
  | nil => intro s; exact ⟨rfl, rfl, fun h => h⟩
  | cons f rest ih =>
    intro s
    have hstep : runInputMessages s (f :: rest) =
        runInputMessages (onmessageInput (some f) s) rest := by
      simp [runInputMessages, onmessage_inputMsg]
    obtain ⟨h1, h2, h3⟩ := onmessageInput_invariants f s
    obtain ⟨g1, g2, g3⟩ := ih (onmessageInput (some f) s)
    rw [hstep]
    exact ⟨g1.trans h1, g2.trans h2, fun h => g3 (h3 h)⟩

/-- Claim C10 (implicit): in the case-folding variants every inbound
input-transcription fragment is lowercased before being appended, so the
input buffer stays free of ASCII uppercase and every user entry emitted
from it on turn-complete has uppercase-free text; likewise the
`src/unnamed/part_000` second-variant input branch keeps its buffer
uppercase-free. -/
theorem claim_C10_lowercased_input (frags : List (List Char)) (s : AppState)
    (hbuf : noUpper s.transcriptionInput = true) :
    noUpper ((runInputMessages s frags).transcriptionInput) = true ∧
    (∀ e ∈ (onmessage turnMsg 0 (runInputMessages s frags)).history,
      e.speaker = Speaker.user → e ∈ s.history ∨ noUpper e.text = true) ∧
    (∀ st : List Char × Bool, noUpper st.1 = true →
      noUpper (frags.foldl (fun acc f => part000v2InputBranch f acc) st).1 =
        true) := by
  obtain ⟨hhist, -, hno⟩ := runInputMessages_invariants frags s
  refine ⟨hno hbuf, ?_, ?_⟩
  · intro e he hu
    rw [onmessage_turnMsg, turnCompleteAction_history, hhist] at he
    simp only [List.append_assoc, List.mem_append] at he
    rcases he with he | he
    · exact Or.inl he
    · right
      rcases he with he | he
      · rcases (by split at he <;> simp_all :
            e = (⟨Speaker.user,
              trimString (runInputMessages s frags).transcriptionInput⟩ :
                TranscriptionEntry)) with rfl
        exact noUpper_trimString (hno hbuf)
      · exfalso
        split at he <;> simp_all
  · exact part000v2_foldl_noUpper frags

theorem claim_C10_witness :
    noUpper connectedState.transcriptionInput = true ∧
    (noUpper ((runInputMessages connectedState
        ["HeLLo".data]).transcriptionInput) = true ∧
      (∀ e ∈ (onmessage turnMsg 0
          (runInputMessages connectedState ["HeLLo".data])).history,
        e.speaker = Speaker.user →
          e ∈ connectedState.history ∨ noUpper e.text = true) ∧
      (∀ st : List Char × Bool, noUpper st.1 = true →
        noUpper ((["HeLLo".data].foldl
          (fun acc f => part000v2InputBranch f acc) st)).1 = true)) :=
  ⟨rfl, claim_C10_lowercased_input ["HeLLo".data] connectedState rfl⟩

theorem charToSextet_sextetChar : ∀ n, n < 64 → charToSextet (sextetChar n) = n := by
  decide

theorem sextetChar_ne_pad : ∀ n, n < 64 → sextetChar n ≠ '=' := by
  decide

theorem b64_roundtrip_aux :
    ∀ (fuel : ℕ) (l : List ℕ), l.length ≤ fuel → (∀ b ∈ l, b < 256) →
      b64decode (b64encode l) = l := by
  intro fuel
  induction fuel with
  | zero =>
    intro l hl _
    have : l = [] := List.eq_nil_of_length_eq_zero (Nat.le_zero.mp hl)
    subst this
    rfl
  | succ n ih =>
    intro l hl hb
    match l with
    | [] => rfl
    | [b1] =>
      have h1 : b1 < 256 := hb b1 (by simp)
      simp only [b64encode, b64decode, if_true]
      rw [charToSextet_sextetChar _ (by omega), charToSextet_sextetChar _ (by omega)]
      simp only [List.cons.injEq, and_true]
      omega
    | [b1, b2] =>
      have h1 : b1 < 256 := hb b1 (by simp)
      have h2 : b2 < 256 := hb b2 (by simp)
      simp only [b64encode, b64decode]
      rw [if_neg (sextetChar_ne_pad _ (by omega))]
      simp only [if_true]
      rw [charToSextet_sextetChar _ (by omega), charToSextet_sextetChar _ (by omega),
        charToSextet_sextetChar _ (by omega)]
      simp only [List.cons.injEq, and_true]
      exact ⟨by omega, by omega⟩
    | b1 :: b2 :: b3 :: rest =>
      have h1 : b1 < 256 := hb b1 (by simp)
      have h2 : b2 < 256 := hb b2 (by simp)
      have h3 : b3 < 256 := hb b3 (by simp)
      simp only [b64encode, b64decode]
      rw [if_neg (sextetChar_ne_pad _ (by omega)), if_neg (sextetChar_ne_pad _ (by omega))]
      rw [charToSextet_sextetChar _ (by omega), charToSextet_sextetChar _ (by omega),
        charToSextet_sextetChar _ (by omega), charToSextet_sextetChar _ (by omega)]
      simp only [List.cons.injEq]
      refine ⟨by omega, by omega, by omega, ?_⟩
      refine ih rest (by simp at hl; omega) (fun x hx => hb x (by simp [hx]))

theorem clampSample_mem (s : ℚ) : -1 ≤ clampSample s ∧ clampSample s ≤ 1 := by
  unfold clampSample
  constructor
  · exact le_max_left _ _
  · exact max_le (by norm_num) (min_le_left _ _)

theorem clampSample_eq (s : ℚ) (h1 : -1 ≤ s) (h2 : s ≤ 1) : clampSample s = s := by
  unfold clampSample
  rw [min_eq_right h2, max_eq_right h1]

theorem ratTrunc_bounds (q : ℚ) (B : ℤ) (h1 : -(B : ℚ) ≤ q) (h2 : q ≤ (B : ℚ))
    (hB : 0 ≤ B) : -B ≤ ratTrunc q ∧ ratTrunc q ≤ B := by
  unfold ratTrunc
  by_cases h : 0 ≤ q
  · rw [if_pos h]
    constructor
    · have : (0 : ℤ) ≤ ⌊q⌋ := by
        rw [Int.le_floor]
        exact_mod_cast h
      omega
    · have := Int.floor_le_floor h2
      simpa using this
  · rw [if_neg h]
    constructor
    · have hc : ((-B : ℤ) : ℚ) = -(B : ℚ) := by push_cast; ring
      rw [← hc] at h1
      have := Int.ceil_le_ceil h1
      rwa [Int.ceil_intCast] at this
    · have : ⌈q⌉ ≤ (0 : ℤ) := by
        rw [Int.ceil_le]
        push_cast
        linarith [not_le.mp h]
      omega

theorem encodeSample_bounds (s : ℚ) :
    -32767 ≤ encodeSample s ∧ encodeSample s ≤ 32767 := by
  unfold encodeSample
  obtain ⟨h1, h2⟩ := clampSample_mem s
  refine ratTrunc_bounds _ 32767 ?_ ?_ (by norm_num)
  · push_cast; nlinarith
  · push_cast; nlinarith

theorem int16_roundtrip (i : ℤ) (h1 : -32768 ≤ i) (h2 : i ≤ 32767) :
    bytesToInt16 ((i % 65536).toNat % 256) ((i % 65536).toNat / 256) = i := by
  unfold bytesToInt16
  have hnn : 0 ≤ i % 65536 := Int.emod_nonneg i (by norm_num)
  have hlt : i % 65536 < 65536 := Int.emod_lt_of_pos i (by norm_num)
  have hcast : ((i % 65536).toNat : ℤ) = i % 65536 := Int.toNat_of_nonneg hnn
  set u := (i % 65536).toNat with hu
  have hu65536 : u < 65536 := by omega
  have hsum : u % 256 + 256 * (u / 256) = u := by omega
  rw [hsum]
  by_cases hcase : u < 32768
  · rw [if_pos hcase]
    omega
  · rw [if_neg hcase]
    omega

theorem int16ToBytes_eq (i : ℤ) :
    int16ToBytes i = [(i % 65536).toNat % 256, (i % 65536).toNat / 256] := rfl

theorem decodeAudioData_packFrame (frame : List ℚ) :
    decodeAudioData (packFrame frame) =
      frame.map fun s => ((encodeSample s : ℤ) : ℚ) / 32768 := by
  induction frame with
  | nil => rfl
  | cons s rest ih =>
    obtain ⟨hb1, hb2⟩ := encodeSample_bounds s
    have hpack : packFrame (s :: rest) =
        (encodeSample s % 65536).toNat % 256 ::
          (encodeSample s % 65536).toNat / 256 :: packFrame rest := by
      simp [packFrame, int16ToBytes_eq]
    rw [hpack]
    show ((bytesToInt16 _ _ : ℤ) : ℚ) / 32768 :: decodeAudioData (packFrame rest) = _
    rw [int16_roundtrip (encodeSample s) (by omega) (by omega), ih, List.map_cons]

theorem packFrame_bytes_lt (frame : List ℚ) : ∀ b ∈ packFrame frame, b < 256 := by
  induction frame with
  | nil => intro b hb; simp [packFrame] at hb
  | cons s rest ih =>
    intro b hb
    have hnn : 0 ≤ encodeSample s % 65536 := Int.emod_nonneg _ (by norm_num)
    have hlt : encodeSample s % 65536 < 65536 :=
      Int.emod_lt_of_pos _ (by norm_num)
    have h65536 : (encodeSample s % 65536).toNat < 65536 := by omega
    have hstep : packFrame (s :: rest) =
        (encodeSample s % 65536).toNat % 256 ::
          (encodeSample s % 65536).toNat / 256 :: packFrame rest := by
      simp [packFrame, int16ToBytes_eq]
    rw [hstep] at hb
    rcases hb with _ | ⟨_, hb⟩
    · omega
    · rcases hb with _ | ⟨_, hb⟩
      · omega
      · exact ih b hb

theorem encodeSample_error (s : ℚ) (h1 : -1 ≤ s) (h2 : s ≤ 1) :
    |((encodeSample s : ℤ) : ℚ) / 32768 - s| < 2 / 32768 := by
  unfold encodeSample
  rw [clampSample_eq s h1 h2]
  unfold ratTrunc
  have key : ∀ e : ℚ, |e / 32768 - s| = |e - 32768 * s| / 32768 := by
    intro e
    rw [show e / 32768 - s = (e - 32768 * s) / 32768 by ring, abs_div]
    norm_num
  by_cases h : 0 ≤ s * 32767
  · rw [if_pos h, key]
    rw [div_lt_div_iff_of_pos_right (by norm_num : (0:ℚ) < 32768)]
    have hfl : (⌊s * 32767⌋ : ℚ) ≤ s * 32767 := Int.floor_le _
    have hfg : s * 32767 - 1 < (⌊s * 32767⌋ : ℚ) := Int.sub_one_lt_floor _
    have hs0 : 0 ≤ s := by nlinarith
    rw [abs_lt]
    constructor <;> nlinarith
  · rw [if_neg h, key]
    rw [div_lt_div_iff_of_pos_right (by norm_num : (0:ℚ) < 32768)]
    have hcl : (s * 32767 : ℚ) ≤ (⌈s * 32767⌉ : ℚ) := Int.le_ceil _
    have hcg : ((⌈s * 32767⌉ : ℚ)) < s * 32767 + 1 := Int.ceil_lt_add_one _
    have hs0 : s ≤ 0 := by nlinarith [not_le.mp h]
    rw [abs_lt]
    constructor <;> nlinarith

/-- Claim C3 counterexample: the codec the spec describes scales up by
32767 on encode but down by 32768 on decode, so near full scale the
round-trip error exceeds the claimed 1/32768 quantization bound.  For
the one-sample frame `[65533/65534]` the encoded integer is
`trunc(65533/65534 * 32767) = 32766` and the decoded sample is
`32766/32768 = 16383/16384`, at absolute error
`98300/(65534*32768) ≈ 1.5/32768 > 1/32768`. -/
theorem claim_C3_counterexample :
    decodeFrame (createBlob [(65533 : ℚ) / 65534]) = [16383 / 16384] ∧
    ¬ |(16383 : ℚ) / 16384 - 65533 / 65534| ≤ 1 / 32768 := by
  constructor
  · have he : encodeSample ((65533 : ℚ) / 65534) = 32766 := by
      unfold encodeSample clampSample ratTrunc
      have hmin : min 1 ((65533 : ℚ) / 65534) = 65533 / 65534 := by
        rw [min_def]; norm_num
      have hmax : max (-1 : ℚ) ((65533 : ℚ) / 65534) = 65533 / 65534 := by
        rw [max_def]; norm_num
      rw [hmin, hmax, if_pos (by norm_num : (0 : ℚ) ≤ 65533 / 65534 * 32767)]
      have harg : (65533 : ℚ) / 65534 * 32767 = 2147319811 / 65534 := by
        norm_num
      rw [harg]
      norm_num [Int.floor_eq_iff]
    have hpack : packFrame [(65533 : ℚ) / 65534] = [254, 127] := by
      simp only [packFrame, List.map_cons, List.map_nil, he]
      decide
    have hb64 : b64decode (b64encode [254, 127]) = [254, 127] := by decide
    unfold decodeFrame createBlob
    rw [hpack, hb64]
    unfold decodeAudioData bytesToInt16 decodeAudioData
    norm_num
  · rw [abs_le]
    norm_num

/-- Claim C3 as amended: for any frame of floats in `[-1, 1]`, decoding
the encoded frame preserves the frame length and reproduces each sample
within 2/32768 absolute error (strictly), not within 1/32768: the
encode scale 32767 against the decode scale 32768 adds up to one extra
quantum of error on top of the truncation near full scale. -/
theorem claim_C3_codec_roundtrip (frame : List ℚ)
    (h : ∀ x ∈ frame, -1 ≤ x ∧ x ≤ 1) :
    (decodeFrame (createBlob frame)).length = frame.length ∧
    List.Forall₂ (fun d s0 => |d - s0| < 2 / 32768)
      (decodeFrame (createBlob frame)) frame := by
  have hdec : decodeFrame (createBlob frame) =
      frame.map fun s => ((encodeSample s : ℤ) : ℚ) / 32768 := by
    unfold decodeFrame createBlob
    rw [b64_roundtrip_aux ((packFrame frame).length) (packFrame frame)
      le_rfl (packFrame_bytes_lt frame)]
    exact decodeAudioData_packFrame frame
  rw [hdec]
  constructor
  · exact List.length_map _ _
  · rw [List.forall₂_map_left_iff]
    rw [List.forall₂_same]
    intro x hx
    exact encodeSample_error x (h x hx).1 (h x hx).2

theorem claim_C3_witness :
    (∀ x ∈ [(1 : ℚ), -1, 0, 1 / 2], -1 ≤ x ∧ x ≤ 1) ∧
    ((decodeFrame (createBlob [(1 : ℚ), -1, 0, 1 / 2])).length =
        ([(1 : ℚ), -1, 0, 1 / 2] : List ℚ).length ∧
      List.Forall₂ (fun d s0 => |d - s0| < 2 / 32768)
        (decodeFrame (createBlob [(1 : ℚ), -1, 0, 1 / 2]))
        [(1 : ℚ), -1, 0, 1 / 2]) :=
  ⟨by intro x hx; fin_cases hx <;> norm_num,
    claim_C3_codec_roundtrip [(1 : ℚ), -1, 0, 1 / 2]
      (by intro x hx; fin_cases hx <;> norm_num)⟩

end Salin
